import Mathlib

/-!
Shallow embedding of the pseudo character device driver in `src/pcd.c`.

The driver exposes a fixed 512-byte global buffer (`device_buffer`) through
the file operations `pcd_lseek`, `pcd_read`, `pcd_write`, `pcd_open`,
`pcd_release`.  In the C source, `*f_pos` is a `loff_t` (signed 64-bit) and
`count` is a `size_t` (unsigned 64-bit); all mixed comparisons and the
assignment `count = DEV_MEM_SIZE - *f_pos` follow C's usual arithmetic
conversions, which we model explicitly with mod-2^64 arithmetic
(`toU64`, `addU64`, `toI64`).  The user-space copy (`copy_to_user` /
`copy_from_user`) is modelled by an all-or-nothing success oracle `copyOk`.
-/

namespace Pcd

/-- `#define DEV_MEM_SIZE 512` -/
def DEV_MEM_SIZE : Int := 512

/-- Kernel error number `EINVAL` (functions return its negation). -/
def EINVAL : Int := 22

/-- Kernel error number `ENOSPC`. -/
def ENOSPC : Int := 28

/-- Kernel error number `EFAULT`. -/
def EFAULT : Int := 14

/-- `SEEK_SET` whence value. -/
def SEEK_SET : Int := 0

/-- `SEEK_CUR` whence value. -/
def SEEK_CUR : Int := 1

/-- `SEEK_END` whence value. -/
def SEEK_END : Int := 2

/-- Modulus of 64-bit machine arithmetic. -/
def U64 : Nat := 2 ^ 64

/-- C conversion of a signed 64-bit value (`loff_t`) to `size_t`:
reduction mod 2^64. -/
def toU64 (i : Int) : Nat := (i % (U64 : Int)).toNat

/-- Unsigned 64-bit addition (the type of `*f_pos + count` after the usual
arithmetic conversions is `unsigned long long`). -/
def addU64 (a b : Nat) : Nat := (a + b) % U64

/-- C conversion of an unsigned 64-bit value back to a signed 64-bit type
(`loff_t` / `ssize_t`): two's-complement reinterpretation. -/
def toI64 (n : Nat) : Int :=
  if n % U64 < 2 ^ 63 then ((n % U64 : Nat) : Int)
  else ((n % U64 : Nat) : Int) - (U64 : Int)

/-- Signed 64-bit wraparound of an exact integer (the kernel is compiled with
wrapping signed arithmetic). -/
def wrapI64 (i : Int) : Int := toI64 (toU64 i)

/-- The global `char device_buffer[DEV_MEM_SIZE]`, as a total map from
(pointer-arithmetic) indices to byte values. -/
def Buffer : Type := Int → Nat

/-- A fixed all-zero buffer used to instantiate closed statements. -/
def buf0 : Buffer := fun _ => 0

/-- Result of `pcd_lseek`: the `loff_t` return value, the (untouched) global
buffer, and the resulting `filp->f_pos`. -/
structure LseekResult where
  ret : Int
  device_buffer : Buffer
  f_pos : Int

/-- The `switch (whence)` of `pcd_lseek`: the candidate `temp_f_pos`
(`SEEK_SET`: `off`; `SEEK_CUR`: `f_pos + off`; `SEEK_END`:
`DEV_MEM_SIZE + off`), or `none` for the `default:` case.  The `loff_t`
additions wrap in signed 64-bit arithmetic (the kernel is built with
wrapping signed overflow). -/
def lseekCandidate (f_pos off whence : Int) : Option Int :=
  if whence = SEEK_SET then some off
  else if whence = SEEK_CUR then some (wrapI64 (f_pos + off))
  else if whence = SEEK_END then some (wrapI64 (DEV_MEM_SIZE + off))
  else none

/-- `pcd_lseek` from `src/pcd.c` lines 44-79: compute a candidate position
from `whence` (returning `-EINVAL` for an unknown mode), reject it with
`-EINVAL` if it is `< 0` or `> DEV_MEM_SIZE` (leaving `f_pos` untouched),
else store and return it. -/
def pcd_lseek (device_buffer : Buffer) (f_pos off whence : Int) : LseekResult :=
  match lseekCandidate f_pos off whence with
  | none => ⟨-EINVAL, device_buffer, f_pos⟩
  | some t =>
      if t < 0 ∨ t > DEV_MEM_SIZE then ⟨-EINVAL, device_buffer, f_pos⟩
      else ⟨t, device_buffer, t⟩

/-- The truncation step shared verbatim by `pcd_read` and `pcd_write`:
`if ((*f_pos + count) > DEV_MEM_SIZE) count = DEV_MEM_SIZE - *f_pos;`.
Both the sum and the comparison are performed in unsigned 64-bit arithmetic
(usual arithmetic conversions of `loff_t + size_t`), and the assignment
converts the signed difference `DEV_MEM_SIZE - *f_pos` to `size_t`. -/
def effCount (f_pos : Int) (count : Nat) : Nat :=
  if addU64 (toU64 f_pos) count > toU64 DEV_MEM_SIZE
  then toU64 (DEV_MEM_SIZE - f_pos) else count

/-- Result of `pcd_read`: the `ssize_t` return value, the (untouched) global
buffer, the resulting `*f_pos`, the bytes delivered to user space, and the
byte count handed to `copy_to_user` (0 when the copy is never reached). -/
structure ReadResult where
  ret : Int
  device_buffer : Buffer
  f_pos : Int
  data : List Nat
  copied : Nat

/-- `pcd_read` from `src/pcd.c` lines 81-110: truncate `count` to the space
left before `DEV_MEM_SIZE`, return 0 when the (unsigned) truncated count
satisfies `count <= 0` (i.e. equals 0), otherwise `copy_to_user` the bytes
`device_buffer[*f_pos .. *f_pos+count)` (returning `-EFAULT` if the copy
fails), advance `*f_pos` by `count` and return `count`. -/
def pcd_read (device_buffer : Buffer) (f_pos : Int) (count : Nat)
    (copyOk : Bool) : ReadResult :=
  let count1 := effCount f_pos count
  if count1 ≤ 0 then ⟨0, device_buffer, f_pos, [], 0⟩
  else if copyOk then
    ⟨toI64 count1, device_buffer, toI64 (addU64 (toU64 f_pos) count1),
     (List.range count1).map (fun i : Nat => device_buffer (f_pos + (i : Int))),
     count1⟩
  else ⟨-EFAULT, device_buffer, f_pos, [], count1⟩

/-- Result of `pcd_write`: the `ssize_t` return value, the global buffer
after the call, the resulting `*f_pos`, and the byte count handed to
`copy_from_user` (0 when the copy is never reached). -/
structure WriteResult where
  ret : Int
  device_buffer : Buffer
  f_pos : Int
  copied : Nat

/-- `pcd_write` from `src/pcd.c` lines 112-141: truncate the requested count
(the length of the user's byte sequence `src`) to the space left before
`DEV_MEM_SIZE`, return `-ENOSPC` when the (unsigned) truncated count
satisfies `count <= 0` (i.e. equals 0), otherwise `copy_from_user` the first
`count` source bytes into `device_buffer[*f_pos .. *f_pos+count)` (returning
`-EFAULT` if the copy fails), advance `*f_pos` by `count` and return
`count`. -/
def pcd_write (device_buffer : Buffer) (f_pos : Int) (src : List Nat)
    (copyOk : Bool) : WriteResult :=
  let count1 := effCount f_pos src.length
  if count1 ≤ 0 then ⟨-ENOSPC, device_buffer, f_pos, 0⟩
  else if copyOk then
    ⟨toI64 count1,
     fun i => if f_pos ≤ i ∧ i < f_pos + (count1 : Int)
              then src.getD (i - f_pos).toNat 0 else device_buffer i,
     toI64 (addU64 (toU64 f_pos) count1), count1⟩
  else ⟨-EFAULT, device_buffer, f_pos, count1⟩

/-- Driver-global state visible to `pcd_open`/`pcd_release`: the byte buffer
and the positions of the open file handles (owned by the VFS, one per open
session). -/
structure DriverState where
  device_buffer : Buffer
  positions : Nat → Int

/-- `pcd_open` from `src/pcd.c` lines 143-148: logs and returns 0, touching
no driver state. -/
def pcd_open (s : DriverState) : Int × DriverState := (0, s)

/-- `pcd_release` from `src/pcd.c` lines 150-155: logs and returns 0,
touching no driver state. -/
def pcd_release (s : DriverState) : Int × DriverState := (0, s)

/-- `n` successive invocations of `pcd_release` on a driver state. -/
def releaseIter : Nat → DriverState → DriverState
  | 0, s => s
  | n + 1, s => releaseIter n (pcd_release s).2

/-- Modelled from the spec: `open()` initializes the session position to 0
(for a character device this initialization is performed by the kernel VFS,
not by code in `src/`). -/
def initial_f_pos : Int := 0

/-- All buffer indices touched by a user copy of `n` bytes starting at
`f_pos` — the contiguous range `[f_pos, f_pos + n)` — lie inside the device
buffer `[0, DEV_MEM_SIZE)`. -/
def accessWithin (f_pos : Int) (n : Nat) : Prop :=
  ∀ i : Int, f_pos ≤ i → i < f_pos + (n : Int) → 0 ≤ i ∧ i < DEV_MEM_SIZE

lemma U64_eq : U64 = 18446744073709551616 := by norm_num [U64]

lemma toU64_of_nonneg {i : Int} (h0 : 0 ≤ i) (h1 : i < (U64 : Int)) :
    toU64 i = i.toNat := by
  unfold toU64
  rw [U64_eq] at *
  omega

lemma toI64_small {n : Nat} (h : n < 2 ^ 63) : toI64 n = (n : Int) := by
  unfold toI64
  rw [U64_eq]
  norm_num at h ⊢
  omega

lemma wrapI64_id {i : Int} (h0 : -(2 ^ 63) ≤ i) (h1 : i < 2 ^ 63) :
    wrapI64 i = i := by
  unfold wrapI64 toI64 toU64
  rw [U64_eq]
  norm_num at h0 h1 ⊢
  omega

lemma wrapI64_oob {i : Int} (h0 : -(2 ^ 63) ≤ i) (h1 : i < 2 ^ 63 + 512)
    (h : i < 0 ∨ i > 512) : wrapI64 i < 0 ∨ wrapI64 i > 512 := by
  unfold wrapI64 toI64 toU64
  rw [U64_eq]
  norm_num at h0 h1 ⊢
  omega

lemma pcd_lseek_eq_invalid (buf : Buffer) (p off w : Int)
    (h : lseekCandidate p off w = none) :
    pcd_lseek buf p off w = ⟨-EINVAL, buf, p⟩ := by
  unfold pcd_lseek
  rw [h]

lemma pcd_lseek_eq_oob (buf : Buffer) (p off w t : Int)
    (h : lseekCandidate p off w = some t) (ht : t < 0 ∨ t > DEV_MEM_SIZE) :
    pcd_lseek buf p off w = ⟨-EINVAL, buf, p⟩ := by
  unfold pcd_lseek
  rw [h]
  exact if_pos ht

lemma pcd_lseek_eq_ok (buf : Buffer) (p off w t : Int)
    (h : lseekCandidate p off w = some t) (ht : ¬(t < 0 ∨ t > DEV_MEM_SIZE)) :
    pcd_lseek buf p off w = ⟨t, buf, t⟩ := by
  unfold pcd_lseek
  rw [h]
  exact if_neg ht

lemma pcd_read_eq_zero (buf : Buffer) (p : Int) (c : Nat) (ok : Bool)
    (h : effCount p c = 0) : pcd_read buf p c ok = ⟨0, buf, p, [], 0⟩ := by
  simp [pcd_read, h]

lemma pcd_read_eq_ok (buf : Buffer) (p : Int) (c : Nat)
    (h : effCount p c ≠ 0) :
    pcd_read buf p c true =
      ⟨toI64 (effCount p c), buf, toI64 (addU64 (toU64 p) (effCount p c)),
       (List.range (effCount p c)).map (fun i : Nat => buf (p + (i : Int))),
       effCount p c⟩ := by
  simp [pcd_read, h]

lemma pcd_read_eq_fault (buf : Buffer) (p : Int) (c : Nat)
    (h : effCount p c ≠ 0) :
    pcd_read buf p c false = ⟨-EFAULT, buf, p, [], effCount p c⟩ := by
  simp [pcd_read, h]

lemma pcd_write_eq_zero (buf : Buffer) (p : Int) (src : List Nat) (ok : Bool)
    (h : effCount p src.length = 0) :
    pcd_write buf p src ok = ⟨-ENOSPC, buf, p, 0⟩ := by
  simp [pcd_write, h]

lemma pcd_write_eq_ok (buf : Buffer) (p : Int) (src : List Nat)
    (h : effCount p src.length ≠ 0) :
    pcd_write buf p src true =
      ⟨toI64 (effCount p src.length),
       fun i => if p ≤ i ∧ i < p + (effCount p src.length : Int)
                then src.getD (i - p).toNat 0 else buf i,
       toI64 (addU64 (toU64 p) (effCount p src.length)),
       effCount p src.length⟩ := by
  simp [pcd_write, h]

lemma pcd_write_eq_fault (buf : Buffer) (p : Int) (src : List Nat)
    (h : effCount p src.length ≠ 0) :
    pcd_write buf p src false = ⟨-EFAULT, buf, p, effCount p src.length⟩ := by
  simp [pcd_write, h]

lemma effCount_eq {p : Int} {c : Nat} (h0 : 0 ≤ p) (h1 : p ≤ 512)
    (hw : p.toNat + c < U64) :
    effCount p c = (min (c : Int) (512 - p)).toNat := by
  unfold effCount addU64
  rw [toU64_of_nonneg h0 (by rw [U64_eq]; omega),
      toU64_of_nonneg (by norm_num [DEV_MEM_SIZE])
        (by rw [U64_eq]; norm_num [DEV_MEM_SIZE])]
  rw [U64_eq] at hw ⊢
  unfold DEV_MEM_SIZE toU64
  rw [U64_eq]
  split
  · omega
  · omega

/-- Claim C1 (amended): for every position `p` with `0 ≤ p ≤ 512` and every
requested count `c` whose 64-bit sum with `p` does not wrap
(`p + c < 2^64`), `pcd_read` with a succeeding user copy returns exactly
`min(c, 512 − p)`, delivers that many bytes, advances the position by that
amount, and never fails with an error (a count of 0 at end-of-region is a
success, not an error). -/
theorem pcd_read_in_bounds_spec (buf : Buffer) (p : Int) (c : Nat)
    (h0 : 0 ≤ p) (h1 : p ≤ 512) (hw : p.toNat + c < U64) :
    (pcd_read buf p c true).ret = min (c : Int) (512 - p) ∧
    (pcd_read buf p c true).data.length = (min (c : Int) (512 - p)).toNat ∧
    (pcd_read buf p c true).f_pos = p + min (c : Int) (512 - p) ∧
    0 ≤ (pcd_read buf p c true).ret := by
  have hmin0 : 0 ≤ min (c : Int) (512 - p) := by
    rcases le_total (c : Int) (512 - p) with h | h
    · rw [min_eq_left h]; positivity
    · rw [min_eq_right h]; omega
  have hmin512 : min (c : Int) (512 - p) ≤ 512 := by
    rcases le_total (c : Int) (512 - p) with h | h
    · rw [min_eq_left h]; omega
    · rw [min_eq_right h]; omega
  have he : effCount p c = (min (c : Int) (512 - p)).toNat := effCount_eq h0 h1 hw
  set m : Nat := (min (c : Int) (512 - p)).toNat with hm
  have hcast : (m : Int) = min (c : Int) (512 - p) := by omega
  have hm512 : m ≤ 512 := by omega
  rcases Nat.eq_zero_or_pos m with hz | hpos
  · have hminz : min (c : Int) (512 - p) = 0 := by omega
    rw [pcd_read_eq_zero buf p c true (he.trans hz)]
    dsimp only
    simp [hminz]
    omega
  · rw [pcd_read_eq_ok buf p c (by omega)]
    dsimp only
    refine ⟨?_, ?_, ?_, ?_⟩
    · rw [he, toI64_small (by omega)]; omega
    · simp [he]
    · rw [he, toU64_of_nonneg h0 (by rw [U64_eq]; omega)]
      unfold addU64
      rw [U64_eq, Nat.mod_eq_of_lt (by omega), toI64_small (by omega)]
      push_cast
      omega
    · rw [he, toI64_small (by omega)]; omega

/-- Witness for `pcd_read_in_bounds_spec` at buffer `buf0`, position 3 and
count 5: the hypotheses hold there and the conclusion instantiates. -/
theorem pcd_read_in_bounds_spec_witness :
    (pcd_read buf0 3 5 true).ret = min ((5 : Nat) : Int) (512 - 3) ∧
    (pcd_read buf0 3 5 true).data.length = (min ((5 : Nat) : Int) (512 - 3)).toNat ∧
    (pcd_read buf0 3 5 true).f_pos = 3 + min ((5 : Nat) : Int) (512 - 3) ∧
    0 ≤ (pcd_read buf0 3 5 true).ret :=
  pcd_read_in_bounds_spec buf0 3 5 (by norm_num) (by norm_num)
    (by rw [U64_eq]; decide)

/-- Claim C1, counterexample to the unamended statement: at position 1 with
the maximal `size_t` count `2^64 − 1`, the unsigned comparison
`(*f_pos + count) > DEV_MEM_SIZE` wraps around (`1 + (2^64−1) ≡ 0`), the
truncation is skipped, and `pcd_read` returns `(ssize_t)(2^64−1) = −1` — an
error-range value — instead of succeeding with `min(c, 512−1) = 511`. -/
theorem pcd_read_huge_count_cex :
    (pcd_read buf0 1 (U64 - 1) true).ret = -1 ∧
    min ((U64 - 1 : Nat) : Int) (512 - 1) = 511 ∧
    (pcd_read buf0 1 (U64 - 1) true).ret ≠
      min ((U64 - 1 : Nat) : Int) (512 - 1) := by
  have h1 : (pcd_read buf0 1 (U64 - 1) true).ret = -1 := by decide
  have h2 : min ((U64 - 1 : Nat) : Int) (512 - 1) = 511 := by
    rw [U64_eq]; decide
  exact ⟨h1, h2, by rw [h1, h2]; decide⟩

/-- Claim C2: for every position `p` with `0 ≤ p ≤ 512` and every source
byte sequence whose 64-bit length sum with `p` does not wrap, `pcd_write`
with a succeeding user copy returns `min(c, 512 − p)` and advances the
position by that amount when that minimum is positive, and fails with
`-ENOSPC` exactly when the minimum is `≤ 0` — in particular an empty source
sequence fails with `-ENOSPC` even when `p < 512`. -/
theorem pcd_write_in_bounds_spec (buf : Buffer) (p : Int) (src : List Nat)
    (h0 : 0 ≤ p) (h1 : p ≤ 512) (hw : p.toNat + src.length < U64) :
    (0 < min (src.length : Int) (512 - p) →
      (pcd_write buf p src true).ret = min (src.length : Int) (512 - p) ∧
      (pcd_write buf p src true).f_pos = p + min (src.length : Int) (512 - p)) ∧
    (min (src.length : Int) (512 - p) ≤ 0 →
      (pcd_write buf p src true).ret = -ENOSPC ∧
      (pcd_write buf p src true).f_pos = p) := by
  have hmin0 : 0 ≤ min (src.length : Int) (512 - p) := by
    rcases le_total (src.length : Int) (512 - p) with h | h
    · rw [min_eq_left h]; positivity
    · rw [min_eq_right h]; omega
  have hmin512 : min (src.length : Int) (512 - p) ≤ 512 := by
    rcases le_total (src.length : Int) (512 - p) with h | h
    · rw [min_eq_left h]; omega
    · rw [min_eq_right h]; omega
  have he : effCount p src.length = (min (src.length : Int) (512 - p)).toNat :=
    effCount_eq h0 h1 hw
  set m : Nat := (min (src.length : Int) (512 - p)).toNat with hm
  have hcast : (m : Int) = min (src.length : Int) (512 - p) := by omega
  have hm512 : m ≤ 512 := by omega
  constructor
  · intro hpos
    rw [pcd_write_eq_ok buf p src (by omega)]
    dsimp only
    constructor
    · rw [he, toI64_small (by omega)]; omega
    · rw [he, toU64_of_nonneg h0 (by rw [U64_eq]; omega)]
      unfold addU64
      rw [U64_eq, Nat.mod_eq_of_lt (by omega), toI64_small (by omega)]
      push_cast
      omega
  · intro hneg
    have hz : m = 0 := by omega
    rw [pcd_write_eq_zero buf p src true (he.trans hz)]
    exact ⟨rfl, rfl⟩

/-- Witness for `pcd_write_in_bounds_spec` at buffer `buf0`, position 510
and a 2-byte payload (the spec's own truncation example). -/
theorem pcd_write_in_bounds_spec_witness :
    (0 < min (((2 : Nat) : Int)) (512 - 510) →
      (pcd_write buf0 510 [7, 8] true).ret = min (((2 : Nat) : Int)) (512 - 510) ∧
      (pcd_write buf0 510 [7, 8] true).f_pos = 510 + min (((2 : Nat) : Int)) (512 - 510)) ∧
    (min (((2 : Nat) : Int)) (512 - 510) ≤ 0 →
      (pcd_write buf0 510 [7, 8] true).ret = -ENOSPC ∧
      (pcd_write buf0 510 [7, 8] true).f_pos = 510) :=
  pcd_write_in_bounds_spec buf0 510 [7, 8] (by norm_num) (by norm_num)
    (by rw [U64_eq]; decide)

/-- Claim C2, counterexample to the unamended statement: at position 1 with
a source sequence of the maximal `size_t` length `2^64 − 1`, the unsigned
bounds comparison wraps, truncation is skipped, and `pcd_write` returns
`(ssize_t)(2^64−1) = −1` instead of the claimed positive `min(c, 511) =
511`. -/
theorem pcd_write_huge_count_cex :
    (pcd_write buf0 1 (List.replicate (U64 - 1) 0) true).ret = -1 ∧
    min (((List.replicate (U64 - 1) (0 : Nat)).length : Int)) (512 - 1) = 511 ∧
    (pcd_write buf0 1 (List.replicate (U64 - 1) 0) true).ret ≠
      min (((List.replicate (U64 - 1) (0 : Nat)).length : Int)) (512 - 1) := by
  have hlen : (List.replicate (U64 - 1) (0 : Nat)).length = U64 - 1 :=
    List.length_replicate _ _
  have heffne : effCount 1 (List.replicate (U64 - 1) (0 : Nat)).length ≠ 0 := by
    rw [hlen]; decide
  have h1 : (pcd_write buf0 1 (List.replicate (U64 - 1) 0) true).ret = -1 := by
    rw [pcd_write_eq_ok buf0 1 _ heffne]
    dsimp only
    rw [hlen]
    decide
  have h2 : min (((List.replicate (U64 - 1) (0 : Nat)).length : Int)) (512 - 1) = 511 := by
    rw [hlen, U64_eq]
    decide
  exact ⟨h1, h2, by rw [h1, h2]; decide⟩

/-- Claim C3: for every in-bounds current position `p` and every `loff_t`
offset, `pcd_lseek` computes the candidate as `off` for `SEEK_SET`,
`p + off` for `SEEK_CUR` and `512 + off` for `SEEK_END`; it fails with
`-EINVAL` for any other mode and whenever the candidate lies outside
`[0, 512]`, leaving the position unchanged on every failure; otherwise it
stores and returns the candidate.  (Signed 64-bit wraparound of the
candidate sum can only produce a rejected value, so the characterization
holds for the exact mathematical candidate.) -/
theorem pcd_lseek_spec (buf : Buffer) (p off w : Int)
    (hp0 : 0 ≤ p) (hp1 : p ≤ 512)
    (hoff0 : -(2 ^ 63) ≤ off) (hoff1 : off < 2 ^ 63) :
    (w = SEEK_SET →
      pcd_lseek buf p off w =
        if 0 ≤ off ∧ off ≤ 512 then ⟨off, buf, off⟩ else ⟨-EINVAL, buf, p⟩) ∧
    (w = SEEK_CUR →
      pcd_lseek buf p off w =
        if 0 ≤ p + off ∧ p + off ≤ 512 then ⟨p + off, buf, p + off⟩
        else ⟨-EINVAL, buf, p⟩) ∧
    (w = SEEK_END →
      pcd_lseek buf p off w =
        if 0 ≤ 512 + off ∧ 512 + off ≤ 512 then ⟨512 + off, buf, 512 + off⟩
        else ⟨-EINVAL, buf, p⟩) ∧
    (w ≠ SEEK_SET → w ≠ SEEK_CUR → w ≠ SEEK_END →
      pcd_lseek buf p off w = ⟨-EINVAL, buf, p⟩) := by
  refine ⟨?_, ?_, ?_, ?_⟩
  · rintro rfl
    have hcand : lseekCandidate p off SEEK_SET = some off := by
      unfold lseekCandidate
      rw [if_pos rfl]
    by_cases hb : 0 ≤ off ∧ off ≤ 512
    · rw [if_pos hb,
          pcd_lseek_eq_ok buf p off SEEK_SET off hcand
            (by unfold DEV_MEM_SIZE; omega)]
    · rw [if_neg hb,
          pcd_lseek_eq_oob buf p off SEEK_SET off hcand
            (by unfold DEV_MEM_SIZE; omega)]
  · rintro rfl
    have hcand : lseekCandidate p off SEEK_CUR = some (wrapI64 (p + off)) := by
      unfold lseekCandidate
      rw [if_neg (by unfold SEEK_SET SEEK_CUR; omega), if_pos rfl]
    by_cases hb : 0 ≤ p + off ∧ p + off ≤ 512
    · have hid : wrapI64 (p + off) = p + off := wrapI64_id (by omega) (by omega)
      rw [hid] at hcand
      rw [if_pos hb,
          pcd_lseek_eq_ok buf p off SEEK_CUR (p + off) hcand
            (by unfold DEV_MEM_SIZE; omega)]
    · have hoob : wrapI64 (p + off) < 0 ∨ wrapI64 (p + off) > 512 :=
        wrapI64_oob (by omega) (by omega) (by omega)
      rw [if_neg hb,
          pcd_lseek_eq_oob buf p off SEEK_CUR (wrapI64 (p + off)) hcand
            (by unfold DEV_MEM_SIZE; omega)]
  · rintro rfl
    have hcand : lseekCandidate p off SEEK_END =
        some (wrapI64 (DEV_MEM_SIZE + off)) := by
      unfold lseekCandidate
      rw [if_neg (by unfold SEEK_SET SEEK_END; omega),
          if_neg (by unfold SEEK_CUR SEEK_END; omega), if_pos rfl]
    rw [show DEV_MEM_SIZE + off = 512 + off by unfold DEV_MEM_SIZE; ring] at hcand
    by_cases hb : 0 ≤ 512 + off ∧ 512 + off ≤ 512
    · have hid : wrapI64 (512 + off) = 512 + off := wrapI64_id (by omega) (by omega)
      rw [hid] at hcand
      rw [if_pos hb,
          pcd_lseek_eq_ok buf p off SEEK_END (512 + off) hcand
            (by unfold DEV_MEM_SIZE; omega)]
    · have hoob : wrapI64 (512 + off) < 0 ∨ wrapI64 (512 + off) > 512 :=
        wrapI64_oob (by omega) (by omega) (by omega)
      rw [if_neg hb,
          pcd_lseek_eq_oob buf p off SEEK_END (wrapI64 (512 + off)) hcand
            (by unfold DEV_MEM_SIZE; omega)]
  · intro h1 h2 h3
    have hcand : lseekCandidate p off w = none := by
      unfold lseekCandidate
      rw [if_neg h1, if_neg h2, if_neg h3]
    exact pcd_lseek_eq_invalid buf p off w hcand

/-- Witness for `pcd_lseek_spec` at position 7, offset −600, mode
`SEEK_END` (2): the candidate −88 is rejected with `-EINVAL` and the
position stays 7. -/
theorem pcd_lseek_spec_witness :
    ((2 : Int) = SEEK_SET →
      pcd_lseek buf0 7 (-600) 2 =
        if 0 ≤ (-600 : Int) ∧ (-600 : Int) ≤ 512 then ⟨-600, buf0, -600⟩
        else ⟨-EINVAL, buf0, 7⟩) ∧
    ((2 : Int) = SEEK_CUR →
      pcd_lseek buf0 7 (-600) 2 =
        if 0 ≤ (7 : Int) + -600 ∧ (7 : Int) + -600 ≤ 512
        then ⟨7 + -600, buf0, 7 + -600⟩ else ⟨-EINVAL, buf0, 7⟩) ∧
    ((2 : Int) = SEEK_END →
      pcd_lseek buf0 7 (-600) 2 =
        if 0 ≤ (512 : Int) + -600 ∧ (512 : Int) + -600 ≤ 512
        then ⟨512 + -600, buf0, 512 + -600⟩ else ⟨-EINVAL, buf0, 7⟩) ∧
    ((2 : Int) ≠ SEEK_SET → (2 : Int) ≠ SEEK_CUR → (2 : Int) ≠ SEEK_END →
      pcd_lseek buf0 7 (-600) 2 = ⟨-EINVAL, buf0, 7⟩) :=
  pcd_lseek_spec buf0 7 (-600) 2 (by norm_num) (by norm_num)
    (by norm_num) (by norm_num)

/-- After a successful copy, the updated `*f_pos` of `pcd_read`/`pcd_write`
stays inside `[0, 512]` whenever the starting position did — for every
count, because the unsigned addition is reduced mod 2^64 before being
stored back into the signed `loff_t`. -/
lemma fpos_advance_bound {p : Int} {c : Nat} (h0 : 0 ≤ p) (h1 : p ≤ 512) :
    0 ≤ toI64 (addU64 (toU64 p) (effCount p c)) ∧
    toI64 (addU64 (toU64 p) (effCount p c)) ≤ 512 := by
  simp only [effCount, toI64, addU64, toU64, DEV_MEM_SIZE, U64_eq] at *
  split_ifs <;> omega

/-- A contiguous copy starting at a non-negative position and fitting under
the capacity stays inside the buffer. -/
lemma accessWithin_of {p : Int} {n : Nat} (h0 : 0 ≤ p)
    (hn : (n : Int) ≤ 512 - p) : accessWithin p n := by
  unfold accessWithin DEV_MEM_SIZE
  intro i hi1 hi2
  omega

/-- `pcd_lseek` keeps an in-bounds position in bounds: it either leaves
`f_pos` unchanged or stores a candidate it has checked against
`[0, DEV_MEM_SIZE]`. -/
lemma pcd_lseek_fpos_bound (buf : Buffer) (p off w : Int)
    (h0 : 0 ≤ p) (h1 : p ≤ 512) :
    0 ≤ (pcd_lseek buf p off w).f_pos ∧ (pcd_lseek buf p off w).f_pos ≤ 512 := by
  unfold pcd_lseek
  cases lseekCandidate p off w with
  | none => exact ⟨h0, h1⟩
  | some t =>
      dsimp only
      split_ifs with ht
      · exact ⟨h0, h1⟩
      · unfold DEV_MEM_SIZE at ht
        dsimp only
        omega

/-- Claim C4 (amended): every operation (open, read, write, seek, close —
close touches no state at all, see `pcd_release`) preserves the invariant
`0 ≤ position ≤ 512`, and every read or write whose 64-bit position+count
sum does not wrap accesses the byte buffer only inside `[0, 512)`. -/
theorem pcd_state_invariant (buf : Buffer) (p off w : Int) (c : Nat)
    (src : List Nat) (ok : Bool) (hp0 : 0 ≤ p) (hp1 : p ≤ 512) :
    (0 ≤ initial_f_pos ∧ initial_f_pos ≤ 512) ∧
    (0 ≤ (pcd_read buf p c ok).f_pos ∧ (pcd_read buf p c ok).f_pos ≤ 512) ∧
    (0 ≤ (pcd_write buf p src ok).f_pos ∧ (pcd_write buf p src ok).f_pos ≤ 512) ∧
    (0 ≤ (pcd_lseek buf p off w).f_pos ∧ (pcd_lseek buf p off w).f_pos ≤ 512) ∧
    (p.toNat + c < U64 → accessWithin p (pcd_read buf p c ok).copied) ∧
    (p.toNat + src.length < U64 →
      accessWithin p (pcd_write buf p src ok).copied) := by
  have hmin : ∀ d : Nat, p.toNat + d < U64 →
      ((min (d : Int) (512 - p)).toNat : Int) ≤ 512 - p := by
    intro d hd
    have : 0 ≤ min (d : Int) (512 - p) := by
      rcases le_total (d : Int) (512 - p) with h | h
      · rw [min_eq_left h]; positivity
      · rw [min_eq_right h]; omega
    have : min (d : Int) (512 - p) ≤ 512 - p := min_le_right _ _
    omega
  refine ⟨⟨by norm_num [initial_f_pos], by norm_num [initial_f_pos]⟩,
    ?_, ?_, pcd_lseek_fpos_bound buf p off w hp0 hp1, ?_, ?_⟩
  · rcases Nat.eq_zero_or_pos (effCount p c) with hz | hpos
    · rw [pcd_read_eq_zero buf p c ok hz]
      exact ⟨hp0, hp1⟩
    · cases ok with
      | false =>
          rw [pcd_read_eq_fault buf p c (by omega)]
          exact ⟨hp0, hp1⟩
      | true =>
          rw [pcd_read_eq_ok buf p c (by omega)]
          exact fpos_advance_bound hp0 hp1
  · rcases Nat.eq_zero_or_pos (effCount p src.length) with hz | hpos
    · rw [pcd_write_eq_zero buf p src ok hz]
      exact ⟨hp0, hp1⟩
    · cases ok with
      | false =>
          rw [pcd_write_eq_fault buf p src (by omega)]
          exact ⟨hp0, hp1⟩
      | true =>
          rw [pcd_write_eq_ok buf p src (by omega)]
          exact fpos_advance_bound hp0 hp1
  · intro hw
    have he : effCount p c = (min (c : Int) (512 - p)).toNat :=
      effCount_eq hp0 hp1 hw
    rcases Nat.eq_zero_or_pos (effCount p c) with hz | hpos
    · rw [pcd_read_eq_zero buf p c ok hz]
      exact accessWithin_of hp0 (by norm_num; omega)
    · cases ok with
      | false =>
          rw [pcd_read_eq_fault buf p c (by omega)]
          dsimp only
          rw [he]
          exact accessWithin_of hp0 (hmin c hw)
      | true =>
          rw [pcd_read_eq_ok buf p c (by omega)]
          dsimp only
          rw [he]
          exact accessWithin_of hp0 (hmin c hw)
  · intro hw
    have he : effCount p src.length = (min (src.length : Int) (512 - p)).toNat :=
      effCount_eq hp0 hp1 hw
    rcases Nat.eq_zero_or_pos (effCount p src.length) with hz | hpos
    · rw [pcd_write_eq_zero buf p src ok hz]
      exact accessWithin_of hp0 (by norm_num; omega)
    · cases ok with
      | false =>
          rw [pcd_write_eq_fault buf p src (by omega)]
          dsimp only
          rw [he]
          exact accessWithin_of hp0 (hmin src.length hw)
      | true =>
          rw [pcd_write_eq_ok buf p src (by omega)]
          dsimp only
          rw [he]
          exact accessWithin_of hp0 (hmin src.length hw)
/-- Witness for `pcd_state_invariant` at position 0 with count 4 and a
2-byte write payload. -/
theorem pcd_state_invariant_witness :
    (0 ≤ initial_f_pos ∧ initial_f_pos ≤ 512) ∧
    (0 ≤ (pcd_read buf0 0 4 true).f_pos ∧ (pcd_read buf0 0 4 true).f_pos ≤ 512) ∧
    (0 ≤ (pcd_write buf0 0 [1, 2] true).f_pos ∧
      (pcd_write buf0 0 [1, 2] true).f_pos ≤ 512) ∧
    (0 ≤ (pcd_lseek buf0 0 0 0).f_pos ∧ (pcd_lseek buf0 0 0 0).f_pos ≤ 512) ∧
    ((0 : Int).toNat + 4 < U64 → accessWithin 0 (pcd_read buf0 0 4 true).copied) ∧
    ((0 : Int).toNat + [1, 2].length < U64 →
      accessWithin 0 (pcd_write buf0 0 [1, 2] true).copied) :=
  pcd_state_invariant buf0 0 0 0 4 [1, 2] true (by norm_num) (by norm_num)

/-- Claim C4, counterexample to the unamended access clause: from the legal
position 1, a read with the maximal `size_t` count wraps the unsigned bounds
check, hands `2^64 − 1` bytes to `copy_to_user`, and therefore touches
buffer index 512 — outside `[0, 512)`. -/
theorem pcd_read_access_oob_cex :
    (pcd_read buf0 1 (U64 - 1) true).copied = U64 - 1 ∧
    ¬ accessWithin 1 ((pcd_read buf0 1 (U64 - 1) true).copied) := by
  have hcop : (pcd_read buf0 1 (U64 - 1) true).copied = U64 - 1 := by decide
  refine ⟨hcop, ?_⟩
  rw [hcop]
  intro hacc
  have h := hacc 512 (by norm_num) (by rw [U64_eq]; norm_num)
  unfold DEV_MEM_SIZE at h
  omega

/-- Claim C5: for every byte sequence `B` with `len(B) ≤ 512`, writing `B`
at position 0 and then reading `len(B)` bytes at position 0 returns exactly
`B` (for the empty sequence the write is rejected with `-ENOSPC`, but the
0-byte read still returns exactly `B = []`). -/
theorem write_read_round_trip (buf : Buffer) (B : List Nat)
    (h : B.length ≤ 512) :
    (pcd_read (pcd_write buf 0 B true).device_buffer 0 B.length true).data
      = B := by
  rcases Nat.eq_zero_or_pos B.length with hz | hpos
  · have hB : B = [] := List.eq_nil_of_length_eq_zero hz
    subst hB
    rw [pcd_write_eq_zero buf 0 [] true (by decide)]
    dsimp only
    rw [pcd_read_eq_zero buf 0 ([] : List Nat).length true (by decide)]
  · have heff : effCount 0 B.length = B.length := by
      simp only [effCount, addU64, toU64, DEV_MEM_SIZE, U64_eq]
      split_ifs with hg
      · omega
      · rfl
    rw [pcd_write_eq_ok buf 0 B (by omega)]
    dsimp only
    rw [pcd_read_eq_ok _ 0 B.length (by omega)]
    dsimp only
    rw [heff]
    apply List.ext_getElem
    · simp
    · intro i h1 h2
      have h2' : i < B.length := by simpa using h2
      simp only [List.getElem_map, List.getElem_range]
      rw [if_pos ⟨by omega, by omega⟩]
      have hidx : ((0 + (i : Int)) - 0).toNat = i := by omega
      rw [hidx]
      exact List.getD_eq_getElem B 0 h2'

/-- Witness for `write_read_round_trip` with the two-byte sequence
`[72, 105]`. -/
theorem write_read_round_trip_witness :
    ([72, 105] : List Nat).length ≤ 512 ∧
    (pcd_read (pcd_write buf0 0 [72, 105] true).device_buffer 0
      ([72, 105] : List Nat).length true).data = [72, 105] :=
  ⟨by decide, write_read_round_trip buf0 [72, 105] (by decide)⟩

/-- Claim C6, evaluation at the failing input (position 513, count 1): the
code computes effective count `(size_t)(512 − 513) = 2^64 − 1`; the unsigned
`count <= 0` guard cannot detect the negative available space, so instead of
returning 0 without touching anything, `pcd_read` hands `2^64 − 1` bytes
starting at out-of-bounds index 513 to `copy_to_user` and — if that copy
succeeds — returns −1 and moves the position to 512 (with a failing copy it
returns `-EFAULT`). -/
theorem pcd_read_past_capacity_bug :
    (pcd_read buf0 513 1 true).ret = -1 ∧
    (pcd_read buf0 513 1 true).f_pos = 512 ∧
    (pcd_read buf0 513 1 true).copied = U64 - 1 ∧
    ¬ accessWithin 513 ((pcd_read buf0 513 1 true).copied) ∧
    (pcd_read buf0 513 1 false).ret = -EFAULT := by
  have hcop : (pcd_read buf0 513 1 true).copied = U64 - 1 := by decide
  refine ⟨by decide, by decide, hcop, ?_, by decide⟩
  rw [hcop]
  intro hacc
  have h := hacc 513 le_rfl (by rw [U64_eq]; norm_num)
  unfold DEV_MEM_SIZE at h
  omega

/-- Claim C7: whenever the user copy is reached (effective count nonzero)
and fails, `pcd_read` and `pcd_write` fail with `-EFAULT`, the session
position is unchanged, and the device buffer is unchanged. -/
theorem transfer_fault_no_mutation (buf : Buffer) (p : Int) (c : Nat)
    (src : List Nat) (hr : effCount p c ≠ 0) (hw : effCount p src.length ≠ 0) :
    (pcd_read buf p c false).ret = -EFAULT ∧
    (pcd_read buf p c false).f_pos = p ∧
    (pcd_read buf p c false).device_buffer = buf ∧
    (pcd_write buf p src false).ret = -EFAULT ∧
    (pcd_write buf p src false).f_pos = p ∧
    (pcd_write buf p src false).device_buffer = buf := by
  rw [pcd_read_eq_fault buf p c hr, pcd_write_eq_fault buf p src hw]
  exact ⟨rfl, rfl, rfl, rfl, rfl, rfl⟩

/-- Witness for `transfer_fault_no_mutation` at position 0, read count 1
and a 1-byte write payload. -/
theorem transfer_fault_no_mutation_witness :
    effCount 0 1 ≠ 0 ∧ effCount 0 ([7] : List Nat).length ≠ 0 ∧
    ((pcd_read buf0 0 1 false).ret = -EFAULT ∧
     (pcd_read buf0 0 1 false).f_pos = 0 ∧
     (pcd_read buf0 0 1 false).device_buffer = buf0 ∧
     (pcd_write buf0 0 [7] false).ret = -EFAULT ∧
     (pcd_write buf0 0 [7] false).f_pos = 0 ∧
     (pcd_write buf0 0 [7] false).device_buffer = buf0) :=
  ⟨by decide, by decide,
   transfer_fault_no_mutation buf0 0 1 [7] (by decide) (by decide)⟩

/-- Claim C8: for every current position `p`, `pcd_lseek` with offset 0 in
`SEEK_END` mode succeeds and both returns and stores exactly 512 (the
capacity), regardless of `p`. -/
theorem seek_end_zero_yields_capacity (buf : Buffer) (p : Int) :
    (pcd_lseek buf p 0 SEEK_END).ret = 512 ∧
    (pcd_lseek buf p 0 SEEK_END).f_pos = 512 := by
  have hcand : lseekCandidate p 0 SEEK_END = some 512 := by
    unfold lseekCandidate
    rw [if_neg (by unfold SEEK_SET SEEK_END; omega),
        if_neg (by unfold SEEK_CUR SEEK_END; omega), if_pos rfl,
        show DEV_MEM_SIZE + 0 = (512 : Int) by unfold DEV_MEM_SIZE; ring,
        wrapI64_id (by norm_num) (by norm_num)]
  rw [pcd_lseek_eq_ok buf p 0 SEEK_END 512 hcand (by unfold DEV_MEM_SIZE; omega)]
  exact ⟨rfl, rfl⟩

/-- Claim C9: `pcd_release` returns 0 (success) and touches no driver
state, so invoking it any number of times leaves the byte buffer and the
position of every open session unchanged. -/
theorem release_frame_preservation (s : DriverState) (n : Nat) :
    (pcd_release s).1 = 0 ∧ releaseIter n s = s ∧
    (releaseIter n s).device_buffer = s.device_buffer ∧
    ∀ k : Nat, (releaseIter n s).positions k = s.positions k := by
  have hiter : releaseIter n s = s := by
    induction n with
    | zero => rfl
    | succ m ih => exact ih
  exact ⟨rfl, hiter, by rw [hiter], fun k => by rw [hiter]⟩

/-- An unsigned 64-bit count of 2^63 or more reinterprets as a negative
`ssize_t`. -/
lemma toI64_neg_of_big {n : Nat} (h1 : 2 ^ 63 ≤ n) (h2 : n < U64) :
    toI64 n < 0 := by
  unfold toI64
  rw [U64_eq] at *
  norm_num at h1 ⊢
  split_ifs with hs
  · omega
  · omega

/-- For a `size_t` count the effective count is again a `size_t` value. -/
lemma effCount_lt_U64 {p : Int} {c : Nat} (hc : c < U64) :
    effCount p c < U64 := by
  unfold effCount toU64 addU64
  split_ifs
  · rw [U64_eq] at *
    omega
  · exact hc

/-- Claim C10: `pcd_read`, `pcd_lseek`, `pcd_open` and `pcd_release` leave
every byte of the device buffer unchanged, on success and on failure, and a
successful `pcd_write` returning `n` at position `p` changes only the bytes
at indices `[p, p + n)`. -/
theorem operation_footprints (buf : Buffer) (p : Int) (c : Nat) (off w : Int)
    (src : List Nat) (ok : Bool) (s : DriverState)
    (hs : src.length < U64) :
    (pcd_read buf p c ok).device_buffer = buf ∧
    (pcd_lseek buf p off w).device_buffer = buf ∧
    pcd_open s = (0, s) ∧
    pcd_release s = (0, s) ∧
    (0 ≤ (pcd_write buf p src true).ret →
      ∀ i : Int, i < p ∨ p + (pcd_write buf p src true).ret ≤ i →
        (pcd_write buf p src true).device_buffer i = buf i) := by
  refine ⟨?_, ?_, rfl, rfl, ?_⟩
  · rcases Nat.eq_zero_or_pos (effCount p c) with hz | hpos
    · rw [pcd_read_eq_zero buf p c ok hz]
    · cases ok with
      | false => rw [pcd_read_eq_fault buf p c (by omega)]
      | true => rw [pcd_read_eq_ok buf p c (by omega)]
  · unfold pcd_lseek
    cases lseekCandidate p off w with
    | none => rfl
    | some t =>
        dsimp only
        split_ifs <;> rfl
  · intro hret i hi
    rcases Nat.eq_zero_or_pos (effCount p src.length) with hz | hpos
    · rw [pcd_write_eq_zero buf p src true hz]
    · have hlt : effCount p src.length < U64 := effCount_lt_U64 hs
      rw [pcd_write_eq_ok buf p src (by omega)] at hret hi ⊢
      dsimp only at hret hi ⊢
      have hsmall : effCount p src.length < 2 ^ 63 := by
        by_contra hbig
        exact absurd hret (not_le.mpr (toI64_neg_of_big (by omega) hlt))
      rw [toI64_small hsmall] at hi
      rw [if_neg (by omega)]

/-- Witness for `operation_footprints` at position 0 with count 2, a
2-byte payload and a concrete driver state: byte 5 (outside the written
range [0, 2)) is untouched. -/
theorem operation_footprints_witness :
    ([3, 4] : List Nat).length < U64 ∧
    ((pcd_read buf0 0 2 true).device_buffer = buf0 ∧
     (pcd_lseek buf0 0 1 1).device_buffer = buf0 ∧
     pcd_open ⟨buf0, fun _ => 0⟩ = (0, ⟨buf0, fun _ => 0⟩) ∧
     pcd_release ⟨buf0, fun _ => 0⟩ = (0, ⟨buf0, fun _ => 0⟩) ∧
     (0 ≤ (pcd_write buf0 0 [3, 4] true).ret →
       ∀ i : Int, i < 0 ∨ 0 + (pcd_write buf0 0 [3, 4] true).ret ≤ i →
         (pcd_write buf0 0 [3, 4] true).device_buffer i = buf0 i)) :=
  ⟨by rw [U64_eq]; decide,
   operation_footprints buf0 0 2 1 1 [3, 4] true ⟨buf0, fun _ => 0⟩
     (by rw [U64_eq]; decide)⟩

end Pcd
